import Mathlib

/-!
Shallow embedding of `src/MIDI.js` (the note lifecycle state machine and the
delivery buffer), together with proofs about it.

Modelling conventions:
* JS numbers used as times, keys and velocities are modelled as `Int`
  (the source only ever adds/subtracts them).
* JS `null`/`undefined`-able values are `Option`s.
* The module-level constant `_TIMESTAMP` and counter `_no`, used to build
  note ids, are threaded through the dispatcher state.
* `Date.now()` reads are made explicit: every handler that reads the clock
  takes the current wall-clock time `now` as a parameter.
* `dispatchEvent` calls are recorded in an event trace: a list of
  `(event type, detail)` pairs, where the detail is the `Note` attached to
  the `CustomEvent` (or `none` when the `CustomEvent` carries no detail).
* A JS runtime exception (`TypeError`) is modelled with `Except String`.
-/

/-- A note id, `\x7b_TIMESTAMP\x7d.\x7b_no++\x7d` in the source: the module-load
timestamp paired with the value of the module-level counter. -/
structure NoteId where
  base : Int
  no : Nat
deriving DecidableEq, Repr

/-- The `Note` class: fields set by the constructor plus the private
`_duration` freeze state (`null` while the note is sounding). -/
structure Note where
  _id : NoteId
  key : Int
  velocity : Int
  timestamp : Int
  _duration : Option Int
deriving DecidableEq, Repr

/-- The `duration` getter: while `_duration` is `null` it recomputes
`Date.now() - this.timestamp`; once `_duration` is set it returns it. -/
def Note.duration (n : Note) (now : Int) : Int :=
  match n._duration with
  | none => now - n.timestamp
  | some d => d

/-- The `playing` getter: `this._duration == null`. -/
def Note.playing (n : Note) : Bool :=
  n._duration.isNone

/-- The shape of the object `Note.toJSON` returns. The `id` field is an
`Option` because property reads that miss yield `undefined`. -/
structure NoteJSON where
  id : Option NoteId
  key : Int
  velocity : Int
  timestamp : Int
  duration : Int
deriving DecidableEq, Repr

/-- `Note.toJSON`. The source reads `this.id`, but the class only ever
assigns `this._id`; the property access therefore evaluates to `undefined`,
modelled as `none`. `duration` goes through the getter, so it is evaluated
at serialization time. -/
def Note.toJSON (n : Note) (now : Int) : NoteJSON :=
  { id := none
    key := n.key
    velocity := n.velocity
    timestamp := n.timestamp
    duration := n.duration now }

/-- `Map.prototype.get` on a `Map` modelled as an insertion-ordered
association list with unique keys. -/
def mapGet : List (Int × Note) → Int → Option Note
  | [], _ => none
  | (k', v) :: rest, k => if k' = k then some v else mapGet rest k

/-- `Map.prototype.set`: overwrite the entry in place when the key is
present, otherwise append it. -/
def mapSet : List (Int × Note) → Int → Note → List (Int × Note)
  | [], k, v => [(k, v)]
  | (k', v') :: rest, k, v =>
      if k' = k then (k, v) :: rest else (k', v') :: mapSet rest k v

/-- `Map.prototype.delete`: remove the entry for the key, if any. -/
def mapDelete : List (Int × Note) → Int → List (Int × Note)
  | [], _ => []
  | (k', v') :: rest, k =>
      if k' = k then mapDelete rest k else (k', v') :: mapDelete rest k

/-- The mutable state of a `MIDI` instance, plus the id-generator globals
and the trace of dispatched `CustomEvent`s. -/
structure MIDIState where
  _TIMESTAMP : Int
  _no : Nat
  notes : List (Int × Note)
  log : List Note
  _buffer : List Note
  events : List (String × Option Note)
deriving DecidableEq, Repr

/-- State of a freshly constructed `MIDI` instance, given the module-load
timestamp used for ids. -/
def initState (base : Int) : MIDIState :=
  { _TIMESTAMP := base, _no := 0, notes := [], log := [], _buffer := [], events := [] }

/-- The `_noteon` listener: construct a `Note`, dispatch `beforenoteon`
with the note as detail, push it onto the log, set it in the active-notes
map, dispatch `noteon` with the note as detail. -/
def _noteon (s : MIDIState) (key velocity timestamp : Int) : MIDIState :=
  let note : Note :=
    { _id := ⟨s._TIMESTAMP, s._no⟩, key := key, velocity := velocity,
      timestamp := timestamp, _duration := none }
  { s with
    _no := s._no + 1
    events := s.events ++ [("beforenoteon", some note), ("noteon", some note)]
    log := s.log ++ [note]
    notes := mapSet s.notes key note }

/-- The `_noteoff` listener. `this.notes.get(key)` yields `undefined` when
the key has no active note, and the following `note._duration =
note.duration` then throws a `TypeError`, modelled as `.error`. Otherwise
the duration is frozen at its current value (read off the live getter at
wall-clock time `now`), the note is pushed onto the delivery buffer, and
the two events are dispatched around the map deletion. The source passes
`\x7bdetail: note\x7d` as the *second argument of `dispatchEvent`*, not of
the `CustomEvent` constructor, so the `beforenoteoff` event carries no
detail. The signal's `velocity` and `timestamp` are destructured but never
used. -/
def _noteoff (s : MIDIState) (key _velocity _timestamp now : Int) :
    Except String MIDIState :=
  match mapGet s.notes key with
  | none => .error "TypeError: cannot read properties of undefined"
  | some n =>
    let note : Note := { n with _duration := some (n.duration now) }
    .ok { s with
          _buffer := s._buffer ++ [note]
          events := s.events ++ [("beforenoteoff", none), ("noteoff", some note)]
          notes := mapDelete s.notes key }

/-- The `playing` getter on `MIDI`: `this.notes.size > 0`. -/
def midiPlaying (s : MIDIState) : Bool :=
  decide (0 < s.notes.length)

/-- A decoded semantic signal as handed to the dispatcher: the fields of
the `CustomEvent` detail (`key`, `velocity`, `tstamp`), plus `now`, the
wall-clock value while the handler runs (the dispatch is synchronous). -/
structure SigEvent where
  isDown : Bool
  key : Int
  velocity : Int
  tstamp : Int
  now : Int
deriving DecidableEq, Repr

/-- Handle one decoded signal: dispatch `_noteon` or `_noteoff`. -/
def step (s : MIDIState) (e : SigEvent) : Except String MIDIState :=
  if e.isDown then .ok (_noteon s e.key e.velocity e.tstamp)
  else _noteoff s e.key e.velocity e.tstamp e.now

/-- Handle a list of decoded signals in order, stopping at the first
uncaught exception. -/
def runSigs (s : MIDIState) : List SigEvent → Except String MIDIState
  | [] => .ok s
  | e :: es =>
    match step s e with
    | .error msg => .error msg
    | .ok s' => runSigs s' es

/-- A `_noteon` dispatch as the raw-message listener produces it: the
detail timestamp is `Date.now()` at dispatch time, and the dispatch is
synchronous, so it coincides with the wall clock during the handler. -/
def keyDown (k v t : Int) : SigEvent :=
  ⟨true, k, v, t, t⟩

/-- A `_noteoff` dispatch as the raw-message listener produces it
(velocity is always sent as `0`); detail timestamp as in `keyDown`. -/
def keyUp (k v t : Int) : SigEvent :=
  ⟨false, k, v, t, t⟩

/-- Outcome of one `fetch`: resolved with `response.ok`, resolved with a
non-2xx status, or rejected (network/transport error). -/
inductive FetchOutcome
  | respOk
  | respNotOk
  | reject
deriving DecidableEq, Repr

/-- The dispatcher state together with the in-flight `fetch` bodies of the
periodic flush process, oldest first. -/
structure SysState where
  m : MIDIState
  flights : List (List Note)
deriving DecidableEq, Repr

/-- Initial system state. -/
def sysInit (base : Int) : SysState :=
  { m := initState base, flights := [] }

/-- One timer tick of the flush callback, up to its suspension point: if
the buffer is non-empty, detach it as the batch of a new in-flight send and
reset `this._buffer` to `[]`; otherwise do nothing. -/
def flushTick (s : SysState) : SysState :=
  if 0 < s.m._buffer.length then
    { m := { s.m with _buffer := [] }, flights := s.flights ++ [s.m._buffer] }
  else s

/-- Resumption of the flush callback once the `i`-th in-flight `fetch`
settles. On a response with `!response.ok` the batch is re-merged in front
of the current buffer (`buffer.concat(this._buffer)`). On a rejected
`fetch` the `await` rethrows; there is no surrounding `try`/`catch`, so
the re-merge line never runs and the batch is dropped. -/
def flushSettle (s : SysState) (i : Nat) (oc : FetchOutcome) : SysState :=
  match s.flights.get? i with
  | none => s
  | some batch =>
    match oc with
    | .respOk => { s with flights := s.flights.eraseIdx i }
    | .respNotOk =>
        { m := { s.m with _buffer := batch ++ s.m._buffer },
          flights := s.flights.eraseIdx i }
    | .reject => { s with flights := s.flights.eraseIdx i }

/-- The string `fetch` actually transmits: `body: buffer` hands the raw
array to `fetch`, which stringifies it via `toString`, i.e. the
comma-joined `String(note)` of each element — `[object Object]` for a
plain class instance. `JSON.stringify` (and hence `Note.toJSON`) is never
invoked on this path. -/
def jsBody (batch : List Note) : String :=
  String.intercalate "," (batch.map (fun _ => "[object Object]"))

/-- An event of the whole system: a decoded signal, a flush timer tick, or
the settling of an in-flight `fetch`. -/
inductive Op
  | sig (e : SigEvent)
  | tick
  | settle (i : Nat) (oc : FetchOutcome)
deriving DecidableEq, Repr

/-- Predicate picking out signal events among system events. -/
def Op.isSig : Op → Bool
  | .sig _ => true
  | _ => false

/-- One system step. -/
def sysStep (s : SysState) : Op → Except String SysState
  | .sig e =>
    match step s.m e with
    | .error msg => .error msg
    | .ok m' => .ok { s with m := m' }
  | .tick => .ok (flushTick s)
  | .settle i oc => .ok (flushSettle s i oc)

/-- Run a list of system events in order, stopping at the first uncaught
exception. -/
def sysRun (s : SysState) : List Op → Except String SysState
  | [] => .ok s
  | op :: ops =>
    match sysStep s op with
    | .error msg => .error msg
    | .ok s' => sysRun s' ops

/-- Invariant tying the delivery buffer (and the in-flight batches) to the
note history log: everything queued for delivery is frozen and was logged
at its press; every registered active note was logged at its press. -/
def bufInv (s : SysState) : Prop :=
  (∀ n ∈ s.m._buffer, n._duration ≠ none ∧ ∃ l ∈ s.m.log, l._id = n._id) ∧
  (∀ b ∈ s.flights, ∀ n ∈ b, n._duration ≠ none ∧ ∃ l ∈ s.m.log, l._id = n._id) ∧
  (∀ p ∈ s.m.notes, ∃ l ∈ s.m.log, l._id = p.2._id)

/-- Two signals that can differ only in the fields the `_noteoff` handler
never reads: they agree on direction, key and handling-time wall clock, and
whenever they are key-down signals they agree completely. -/
def keyUpVariant (e₁ e₂ : SigEvent) : Prop :=
  e₁.isDown = e₂.isDown ∧ e₁.key = e₂.key ∧ e₁.now = e₂.now ∧
  (e₁.isDown = true → e₁.velocity = e₂.velocity ∧ e₁.tstamp = e₂.tstamp)

/-- A concrete completed note, used to instantiate theorems with
hypotheses on explicit inputs. -/
def noteA : Note :=
  { _id := ⟨0, 0⟩, key := 60, velocity := 80, timestamp := 1000, _duration := some 500 }

/-! ### Lemmas about the `Map` model -/

theorem mapGet_set_self (m : List (Int × Note)) (k : Int) (v : Note) :
    mapGet (mapSet m k v) k = some v := by
  induction m with
  | nil => simp [mapSet, mapGet]
  | cons p rest ih =>
    obtain ⟨k', v'⟩ := p
    by_cases h : k' = k <;> simp [mapSet, mapGet, h, ih]

theorem mapGet_set_ne (m : List (Int × Note)) (k k₁ : Int) (v : Note)
    (h : k₁ ≠ k) : mapGet (mapSet m k v) k₁ = mapGet m k₁ := by
  induction m with
  | nil => simp [mapSet, mapGet, Ne.symm h]
  | cons p rest ih =>
    obtain ⟨k', v'⟩ := p
    by_cases hk : k' = k
    · subst hk
      simp [mapSet, mapGet, Ne.symm h]
    · simp [mapSet, mapGet, hk, ih]

theorem mapGet_delete_self (m : List (Int × Note)) (k : Int) :
    mapGet (mapDelete m k) k = none := by
  induction m with
  | nil => simp [mapDelete, mapGet]
  | cons p rest ih =>
    obtain ⟨k', v'⟩ := p
    by_cases h : k' = k <;> simp [mapDelete, mapGet, h, ih]

theorem mapGet_delete_ne (m : List (Int × Note)) (k k₁ : Int)
    (h : k₁ ≠ k) : mapGet (mapDelete m k) k₁ = mapGet m k₁ := by
  induction m with
  | nil => simp [mapDelete, mapGet]
  | cons p rest ih =>
    obtain ⟨k', v'⟩ := p
    by_cases hk : k' = k
    · subst hk
      simp [mapDelete, mapGet, Ne.symm h, ih]
    · by_cases hk₁ : k' = k₁ <;> simp [mapDelete, mapGet, hk, hk₁, h, ih]

theorem mem_mapSet (m : List (Int × Note)) (k : Int) (v : Note) (p : Int × Note)
    (h : p ∈ mapSet m k v) : p = (k, v) ∨ p ∈ m := by
  induction m with
  | nil => simpa [mapSet] using h
  | cons q rest ih =>
    obtain ⟨k', v'⟩ := q
    by_cases hk : k' = k
    · simp only [mapSet, if_pos hk, List.mem_cons] at h
      rcases h with h | h
      · exact Or.inl h
      · exact Or.inr (List.mem_cons_of_mem _ h)
    · simp only [mapSet, if_neg hk, List.mem_cons] at h
      rcases h with h | h
      · exact Or.inr (by simp [h])
      · rcases ih h with h' | h'
        · exact Or.inl h'
        · exact Or.inr (List.mem_cons_of_mem _ h')

theorem mem_mapDelete (m : List (Int × Note)) (k : Int) (p : Int × Note)
    (h : p ∈ mapDelete m k) : p ∈ m := by
  induction m with
  | nil => simp [mapDelete] at h
  | cons q rest ih =>
    obtain ⟨k', v'⟩ := q
    by_cases hk : k' = k
    · simp only [mapDelete, if_pos hk] at h
      exact List.mem_cons_of_mem _ (ih h)
    · simp only [mapDelete, if_neg hk, List.mem_cons] at h
      rcases h with h | h
      · simp [h]
      · exact List.mem_cons_of_mem _ (ih h)

theorem mapGet_mem (m : List (Int × Note)) (k : Int) (n : Note)
    (h : mapGet m k = some n) : (k, n) ∈ m := by
  induction m with
  | nil => simp [mapGet] at h
  | cons q rest ih =>
    obtain ⟨k', v'⟩ := q
    by_cases hk : k' = k
    · subst hk
      simp [mapGet] at h
      subst h
      exact List.mem_cons_self _ _
    · simp only [mapGet, if_neg hk] at h
      exact List.mem_cons_of_mem _ (ih h)

theorem length_pos_iff_exists_mapGet (m : List (Int × Note)) :
    0 < m.length ↔ ∃ k : Int, (mapGet m k).isSome = true := by
  cases m with
  | nil => simp [mapGet]
  | cons p rest =>
    obtain ⟨k', v'⟩ := p
    refine ⟨fun _ => ⟨k', ?_⟩, fun _ => by simp⟩
    simp [mapGet]

/-! ### Lemmas about signal runs -/

theorem runSigs_append (s : MIDIState) (l₁ l₂ : List SigEvent) :
    runSigs s (l₁ ++ l₂) =
      match runSigs s l₁ with
      | .error msg => .error msg
      | .ok s₁ => runSigs s₁ l₂ := by
  induction l₁ generalizing s with
  | nil => simp [runSigs]
  | cons e es ih =>
    simp only [List.cons_append, runSigs]
    cases step s e with
    | error msg => rfl
    | ok s' => exact ih s'

theorem step_mapGet_ne (s s₁ : MIDIState) (e : SigEvent) (k : Int)
    (hk : e.key ≠ k) (h : step s e = .ok s₁) :
    mapGet s₁.notes k = mapGet s.notes k := by
  unfold step at h
  by_cases hd : e.isDown = true
  · rw [if_pos hd] at h
    injection h with h
    subst h
    simpa [_noteon] using mapGet_set_ne s.notes e.key k _ (Ne.symm hk)
  · rw [if_neg hd] at h
    unfold _noteoff at h
    split at h
    · cases h
    · injection h with h
      subst h
      simpa using mapGet_delete_ne s.notes e.key k (Ne.symm hk)

theorem runSigs_mapGet_ne (sigs : List SigEvent) (k : Int)
    (hk : ∀ e ∈ sigs, e.key ≠ k) (s s₁ : MIDIState)
    (h : runSigs s sigs = .ok s₁) :
    mapGet s₁.notes k = mapGet s.notes k := by
  induction sigs generalizing s with
  | nil =>
    simp only [runSigs] at h
    injection h with h
    subst h
    rfl
  | cons e es ih =>
    simp only [runSigs] at h
    cases hs : step s e with
    | error msg => rw [hs] at h; cases h
    | ok s' =>
      rw [hs] at h
      have h1 := step_mapGet_ne s s' e k (hk e (by simp)) hs
      have h2 := ih (fun e' he' => hk e' (by simp [he'])) s' h
      rw [h2, h1]

theorem runSigs_active (k : Int) (sigs : List SigEvent) (s s₁ : MIDIState)
    (h : runSigs s sigs = .ok s₁) :
    (mapGet s₁.notes k).isSome =
      match sigs.reverse.find? (fun e => e.key == k) with
      | some e => e.isDown
      | none => (mapGet s.notes k).isSome := by
  induction sigs using List.reverseRecOn generalizing s₁ with
  | nil =>
    simp only [runSigs] at h
    injection h with h
    subst h
    simp
  | append_singleton l e ih =>
    rw [runSigs_append] at h
    cases hr : runSigs s l with
    | error msg => rw [hr] at h; cases h
    | ok s₀ =>
      rw [hr] at h
      simp only [runSigs] at h
      cases hs : step s₀ e with
      | error msg => rw [hs] at h; cases h
      | ok s' =>
        rw [hs] at h
        injection h with h
        subst h
        by_cases hke : e.key = k
        · rw [List.reverse_append, List.reverse_singleton, List.singleton_append,
            List.find?_cons_of_pos _ (by simpa using hke)]
          cases hd : e.isDown with
          | true =>
            unfold step at hs
            rw [if_pos hd] at hs
            injection hs with hs
            subst hs
            simp [_noteon, ← hke, mapGet_set_self, hd]
          | false =>
            unfold step at hs
            rw [if_neg (by simp [hd])] at hs
            unfold _noteoff at hs
            split at hs
            · cases hs
            · injection hs with hs
              subst hs
              simp [← hke, mapGet_delete_self, hd]
        · rw [List.reverse_append, List.reverse_singleton, List.singleton_append,
            List.find?_cons_of_neg _ (by simpa using hke)]
          rw [step_mapGet_ne s₀ s' e k hke hs]
          exact ih s₀ hr

/-! ### Lemmas about the flush process and the whole system -/

theorem bufInv_init (base : Int) : bufInv (sysInit base) := by
  refine ⟨?_, ?_, ?_⟩ <;> simp [sysInit, initState]

theorem bufInv_step (s s' : SysState) (op : Op)
    (h : sysStep s op = .ok s') (hinv : bufInv s) : bufInv s' := by
  obtain ⟨hbuf, hfl, hreg⟩ := hinv
  cases op with
  | sig e =>
    simp only [sysStep] at h
    cases hs : step s.m e with
    | error msg => rw [hs] at h; cases h
    | ok m' =>
      rw [hs] at h
      injection h with h
      subst h
      unfold step at hs
      by_cases hd : e.isDown = true
      · rw [if_pos hd] at hs
        injection hs with hs
        subst hs
        refine ⟨?_, ?_, ?_⟩
        · intro n hn
          obtain ⟨h1, l, hl, hid⟩ := hbuf n (by simpa [_noteon] using hn)
          exact ⟨h1, l, by simp [_noteon, List.mem_append_left _ hl], hid⟩
        · intro b hb n hn
          obtain ⟨h1, l, hl, hid⟩ := hfl b hb n hn
          exact ⟨h1, l, by simp [_noteon, List.mem_append_left _ hl], hid⟩
        · intro p hp
          simp only [_noteon] at hp
          rcases mem_mapSet _ _ _ _ hp with hp' | hp'
          · subst hp'
            exact ⟨_, by simp [_noteon], rfl⟩
          · obtain ⟨l, hl, hid⟩ := hreg p hp'
            exact ⟨l, by simp [_noteon, List.mem_append_left _ hl], hid⟩
      · rw [if_neg hd] at hs
        unfold _noteoff at hs
        split at hs
        · cases hs
        · rename_i n hn
          injection hs with hs
          subst hs
          refine ⟨?_, ?_, ?_⟩
          · intro n' hn'
            simp only [List.mem_append, List.mem_singleton] at hn'
            rcases hn' with hn' | hn'
            · exact hbuf n' hn'
            · subst hn'
              refine ⟨by simp, ?_⟩
              exact hreg (e.key, n) (mapGet_mem _ _ _ hn)
          · intro b hb n' hn'
            exact hfl b hb n' hn'
          · intro p hp
            exact hreg p (mem_mapDelete _ _ _ hp)
  | tick =>
    simp only [sysStep] at h
    injection h with h
    subst h
    unfold flushTick
    by_cases hb : 0 < s.m._buffer.length
    · rw [if_pos hb]
      refine ⟨by simp, ?_, hreg⟩
      intro b hb' n hn
      simp only [List.mem_append, List.mem_singleton] at hb'
      rcases hb' with hb' | hb'
      · exact hfl b hb' n hn
      · subst hb'
        exact hbuf n hn
    · rw [if_neg hb]
      exact ⟨hbuf, hfl, hreg⟩
  | settle i oc =>
    simp only [sysStep] at h
    injection h with h
    subst h
    unfold flushSettle
    cases hg : s.flights.get? i with
    | none => exact ⟨hbuf, hfl, hreg⟩
    | some batch =>
      have hbm : batch ∈ s.flights := List.get?_mem hg
      cases oc with
      | respOk =>
        exact ⟨hbuf, fun b hb => hfl b (List.mem_of_mem_eraseIdx hb), hreg⟩
      | respNotOk =>
        refine ⟨?_, fun b hb => hfl b (List.mem_of_mem_eraseIdx hb), hreg⟩
        intro n hn
        simp only [List.mem_append] at hn
        rcases hn with hn | hn
        · exact hfl batch hbm n hn
        · exact hbuf n hn
      | reject =>
        exact ⟨hbuf, fun b hb => hfl b (List.mem_of_mem_eraseIdx hb), hreg⟩

theorem bufInv_run (s s' : SysState) (ops : List Op)
    (h : sysRun s ops = .ok s') (hinv : bufInv s) : bufInv s' := by
  induction ops generalizing s with
  | nil =>
    simp only [sysRun] at h
    injection h with h
    subst h
    exact hinv
  | cons op ops ih =>
    simp only [sysRun] at h
    cases hs : sysStep s op with
    | error msg => rw [hs] at h; cases h
    | ok s₁ =>
      rw [hs] at h
      exact ih s₁ h (bufInv_step s s₁ op hs hinv)

theorem sysRun_sig_flights (ops : List Op) (hsig : ∀ op ∈ ops, op.isSig = true)
    (s s₂ : SysState) (h : sysRun s ops = .ok s₂) : s₂.flights = s.flights := by
  induction ops generalizing s with
  | nil =>
    simp only [sysRun] at h
    injection h with h
    subst h
    rfl
  | cons op ops ih =>
    simp only [sysRun] at h
    cases hs : sysStep s op with
    | error msg => rw [hs] at h; cases h
    | ok s₁ =>
      rw [hs] at h
      have hfl : s₁.flights = s.flights := by
        have := hsig op (by simp)
        cases op with
        | sig e =>
          simp only [sysStep] at hs
          cases hse : step s.m e with
          | error msg => rw [hse] at hs; cases hs
          | ok m' =>
            rw [hse] at hs
            injection hs with hs
            subst hs
            rfl
        | tick => simp [Op.isSig] at this
        | settle i oc => simp [Op.isSig] at this
      rw [ih (fun op' hop' => hsig op' (by simp [hop'])) s₁ h, hfl]

/-! ### Claim theorems -/

/-- C3: the claim states that a KeyUp for a key with no active Note in the
registry does not raise a fault (at minimum a no-op). The code violates
this: `this.notes.get(key)` is `undefined` and the subsequent
`note._duration = note.duration` throws a `TypeError`. This theorem
evaluates the handler at the failing input — a KeyUp for key 60 on the
initial (empty-registry) state. -/
theorem noteoff_unmatched_throws :
    _noteoff (initState 0) 60 0 1500 1500
      = .error "TypeError: cannot read properties of undefined" := rfl

/-- C6: the claim states that all four observer notifications carry the
relevant Note as payload, in particular that the pre-update notification
on KeyUp carries the frozen Note. The code violates this for
`beforenoteoff`: in the run KeyDown(60,80,1000) then KeyUp(60,0,1500) the
dispatched events are as listed below, and `beforenoteoff` carries no
detail, because the source passes the detail object as the second argument
of `dispatchEvent` instead of the `CustomEvent` constructor. -/
theorem beforenoteoff_missing_detail :
    (runSigs (initState 0) [keyDown 60 80 1000, keyUp 60 0 1500]).map
        (fun s => s.events.map (fun ev => (ev.1, ev.2.isSome)))
      = .ok [("beforenoteon", true), ("noteon", true),
             ("beforenoteoff", false), ("noteoff", true)] := by
  rfl

/-- C7: the claim states that every transmission sends the batch as a
serialized JSON array of Note serialization views. The code violates
this: `body: buffer` hands the raw array to `fetch` without
`JSON.stringify`, so it is coerced to a comma-joined string of
`[object Object]` entries and `Note.toJSON` is never invoked. Evaluated on
a run that completes one note and detaches it as a batch: the transmitted
body is the field-free string `[object Object]`. -/
theorem flush_body_not_json :
    (sysRun (sysInit 0) [.sig (keyDown 60 80 1000), .sig (keyUp 60 0 1500), .tick]).map
        (fun s => s.flights.map jsBody)
      = .ok ["[object Object]"] := by
  rfl

/-- C8: the claim states that the serialization view's `id` equals the
process-unique identifier assigned at construction (not absent or
undefined). The code violates this: `toJSON` reads `this.id`, which is
`undefined`, while the constructor assigned `this._id`. In a run with one
KeyDown, serializing the logged note at time 1400 yields `id = none` even
though `_id` was assigned `⟨0, 0⟩`; the `duration` field is the
elapsed-so-far value 400, evaluated at serialization time, as claimed. -/
theorem toJSON_id_undefined :
    (runSigs (initState 0) [keyDown 60 80 1000]).map
        (fun s => s.log.map (fun n => ((n.toJSON 1400).id, n._id, (n.toJSON 1400).duration)))
      = .ok [(none, ⟨0, 0⟩, 400)] := by
  rfl

/-- C2 counterexample: one note completes and is detached as the batch of
a flush tick; the `fetch` then rejects (transport error). The claim
predicts the batch is re-merged in front of `pending` for every failure
kind; instead the buffer stays empty and the batch is gone. The first
conjunct shows the in-flight batch did hold the completed note for key 60;
the second shows that after the rejection both the pending buffer and the
in-flight list are empty — the note is lost. -/
theorem flush_reject_loses_batch :
    ((sysRun (sysInit 0) [.sig (keyDown 60 80 1000), .sig (keyUp 60 0 1500), .tick]).map
        (fun s => s.flights.map (fun b => b.map Note.key)) = .ok [[60]])
    ∧ ((sysRun (sysInit 0) [.sig (keyDown 60 80 1000), .sig (keyUp 60 0 1500), .tick,
          .settle 0 .reject]).map (fun s => (s.m._buffer, s.flights)) = .ok ([], [])) :=
  ⟨rfl, rfl⟩

/-- C2 (amended): when a flush transmission fails with a non-2xx response,
the batch is re-merged in front of whatever is currently pending
(`pending = batch ++ pending`), preserving chronological order; but when
the transport itself errors (the `fetch` rejects), the re-merge line never
runs: the pending buffer is left as it was and the batch is dropped. The
two failure kinds are not handled identically. -/
theorem flush_failure_paths (s : SysState) (i : Nat) (batch : List Note)
    (h : s.flights.get? i = some batch) :
    (flushSettle s i .respNotOk).m._buffer = batch ++ s.m._buffer
    ∧ (flushSettle s i .reject).m._buffer = s.m._buffer := by
  unfold flushSettle
  rw [h]
  exact ⟨rfl, rfl⟩

/-- Witness for `flush_failure_paths` at a concrete one-flight state. -/
theorem flush_failure_paths_witness :
    (flushSettle ⟨initState 0, [[noteA]]⟩ 0 .respNotOk).m._buffer
        = [noteA] ++ (initState 0)._buffer
    ∧ (flushSettle ⟨initState 0, [[noteA]]⟩ 0 .reject).m._buffer
        = (initState 0)._buffer :=
  flush_failure_paths ⟨initState 0, [[noteA]]⟩ 0 [noteA] rfl

/-- C10: the velocity and timestamp fields of a KeyUp signal have no
effect: two signal runs whose corresponding elements agree on direction,
key and handling-time wall clock — and agree completely on key-down
signals — produce identical states (registry, log, delivery buffer, event
trace, and hence identical frozen durations): the freeze uses the wall
clock at handling time, never the signal's own fields. -/
theorem keyUp_fields_no_effect (sigs₁ sigs₂ : List SigEvent)
    (hrel : List.Forall₂ keyUpVariant sigs₁ sigs₂) (s : MIDIState) :
    runSigs s sigs₁ = runSigs s sigs₂ := by
  induction hrel generalizing s with
  | nil => rfl
  | cons he hrel ih =>
    rename_i e₁ e₂ l₁ l₂
    obtain ⟨hd, hk, hnow, hdown⟩ := he
    have hstep : step s e₁ = step s e₂ := by
      unfold step
      by_cases h1 : e₁.isDown = true
      · obtain ⟨hv, ht⟩ := hdown h1
        rw [if_pos h1, if_pos (hd ▸ h1), hk, hv, ht]
      · have h2 : ¬ e₂.isDown = true := fun hh => h1 (hd ▸ hh)
        rw [if_neg h1, if_neg h2]
        show _noteoff s e₁.key e₁.velocity e₁.tstamp e₁.now
            = _noteoff s e₂.key e₂.velocity e₂.tstamp e₂.now
        rw [hk, hnow]
        unfold _noteoff
        rfl
    simp only [runSigs, hstep]
    cases step s e₂ with
    | error msg => rfl
    | ok s' => exact ih s'

/-- Witness for `keyUp_fields_no_effect`: the KeyUp's velocity and
timestamp fields are changed, the run result is unchanged. -/
theorem keyUp_fields_no_effect_witness :
    runSigs (initState 0) [keyDown 60 80 1000, keyUp 60 0 1500]
      = runSigs (initState 0) [keyDown 60 80 1000, ⟨false, 60, 99, 1234, 1500⟩] :=
  keyUp_fields_no_effect _ _
    (List.Forall₂.cons (by unfold keyUpVariant; decide)
      (List.Forall₂.cons (by unfold keyUpVariant; decide) List.Forall₂.nil))
    (initState 0)

/-- C5: after any successfully handled sequence of signals from the
initial state, a key is present in the active-notes registry iff the most
recent signal for that key was a KeyDown (a KeyDown occurred with no
subsequent KeyUp for that key); and the system-level `playing` getter is
true iff at least one key is active. -/
theorem registry_active_iff (base k : Int) (sigs : List SigEvent) (s' : MIDIState)
    (h : runSigs (initState base) sigs = .ok s') :
    ((mapGet s'.notes k).isSome = true ↔
        ∃ e : SigEvent,
          sigs.reverse.find? (fun e => e.key == k) = some e ∧ e.isDown = true)
    ∧ (midiPlaying s' = true ↔ ∃ k' : Int, (mapGet s'.notes k').isSome = true) := by
  constructor
  · have hmain := runSigs_active k sigs (initState base) s' h
    rw [hmain]
    cases hf : sigs.reverse.find? (fun e => e.key == k) with
    | none => simp [initState, mapGet]
    | some e =>
      constructor
      · intro hd
        exact ⟨e, rfl, hd⟩
      · rintro ⟨e', he', hd⟩
        injection he' with he'
        rw [he']
        exact hd
  · simp only [midiPlaying, decide_eq_true_eq]
    exact length_pos_iff_exists_mapGet s'.notes

/-- Witness for `registry_active_iff`: one KeyDown for key 60. -/
theorem registry_active_iff_witness :
    ∃ s' : MIDIState,
      runSigs (initState 0) [keyDown 60 80 1000] = .ok s'
      ∧ (((mapGet s'.notes 60).isSome = true ↔
            ∃ e : SigEvent,
              [keyDown 60 80 1000].reverse.find? (fun e => e.key == 60) = some e
                ∧ e.isDown = true)
          ∧ (midiPlaying s' = true ↔ ∃ k' : Int, (mapGet s'.notes k').isSome = true)) :=
  ⟨_, rfl, registry_active_iff 0 60 _ _ rfl⟩

/-- C9: after any successfully handled sequence of system events from the
initial state, every Note in the delivery buffer is frozen
(`playing = false`, so it was frozen when it was pushed, as the model
never mutates buffered notes) and its id appears in the note history log
(it was logged at its press). -/
theorem buffer_frozen_and_logged (base : Int) (ops : List Op) (s' : SysState)
    (h : sysRun (sysInit base) ops = .ok s') :
    ∀ n ∈ s'.m._buffer, n.playing = false ∧ ∃ l ∈ s'.m.log, l._id = n._id := by
  have hinv := bufInv_run (sysInit base) s' ops h (bufInv_init base)
  intro n hn
  obtain ⟨h1, h2⟩ := hinv.1 n hn
  refine ⟨?_, h2⟩
  unfold Note.playing
  cases hd : n._duration with
  | none => exact absurd hd h1
  | some d => rfl

/-- Witness for `buffer_frozen_and_logged`: one completed note. -/
theorem buffer_frozen_and_logged_witness :
    ∃ s' : SysState,
      sysRun (sysInit 0) [.sig (keyDown 60 80 1000), .sig (keyUp 60 0 1500)] = .ok s'
      ∧ ∀ n ∈ s'.m._buffer, n.playing = false ∧ ∃ l ∈ s'.m.log, l._id = n._id :=
  ⟨_, rfl,
    buffer_frozen_and_logged 0 [.sig (keyDown 60 80 1000), .sig (keyUp 60 0 1500)] _ rfl⟩

theorem get?_concat_self (l : List (List Note)) (b : List Note) :
    (l ++ [b]).get? l.length = some b := by
  rw [List.get?_eq_getElem?]
  exact List.getElem?_concat_length l b

theorem eraseIdx_concat_self (l : List (List Note)) (b : List Note) :
    (l ++ [b]).eraseIdx l.length = l := by
  rw [List.eraseIdx_append_of_length_le (le_refl _)]
  simp [List.eraseIdx]

/-- C4: a flush tick on a non-empty buffer detaches the whole buffer as
the in-flight batch and resets the pending buffer to empty before the send
starts; notes completed by signals handled while the send is in flight
accumulate only into the new pending buffer (the in-flight batch is
unchanged); and when the send resolves successfully the batch is discarded
while the dispatcher state — including the newly accumulated pending
notes — is left untouched. -/
theorem flush_detach_isolates_batch (s : SysState) (h : 0 < s.m._buffer.length)
    (during : List Op) (hsig : ∀ op ∈ during, op.isSig = true)
    (s₂ : SysState) (h₂ : sysRun (flushTick s) during = .ok s₂) :
    (flushTick s).m._buffer = []
    ∧ (flushTick s).flights = s.flights ++ [s.m._buffer]
    ∧ s₂.flights = s.flights ++ [s.m._buffer]
    ∧ (flushSettle s₂ s.flights.length .respOk).m = s₂.m
    ∧ (flushSettle s₂ s.flights.length .respOk).flights = s.flights := by
  have ht1 : (flushTick s).m._buffer = [] := by
    unfold flushTick
    rw [if_pos h]
  have ht2 : (flushTick s).flights = s.flights ++ [s.m._buffer] := by
    unfold flushTick
    rw [if_pos h]
  have hfl : s₂.flights = s.flights ++ [s.m._buffer] := by
    rw [sysRun_sig_flights during hsig _ s₂ h₂, ht2]
  have hget : s₂.flights.get? s.flights.length = some s.m._buffer := by
    rw [hfl]
    exact get?_concat_self _ _
  refine ⟨ht1, ht2, hfl, ?_, ?_⟩
  · unfold flushSettle
    rw [hget]
  · unfold flushSettle
    rw [hget]
    show s₂.flights.eraseIdx s.flights.length = s.flights
    rw [hfl]
    exact eraseIdx_concat_self _ _

/-- Witness for `flush_detach_isolates_batch`: one completed note is
detached; a KeyDown for another key is handled while the send is in
flight; the send then succeeds. -/
theorem flush_detach_isolates_batch_witness :
    ∃ s s₂ : SysState,
      sysRun (sysInit 0) [.sig (keyDown 60 80 1000), .sig (keyUp 60 0 1500)] = .ok s
      ∧ sysRun (flushTick s) [.sig (keyDown 61 70 2000)] = .ok s₂
      ∧ ((flushTick s).m._buffer = []
          ∧ (flushTick s).flights = s.flights ++ [s.m._buffer]
          ∧ s₂.flights = s.flights ++ [s.m._buffer]
          ∧ (flushSettle s₂ s.flights.length .respOk).m = s₂.m
          ∧ (flushSettle s₂ s.flights.length .respOk).flights = s.flights) :=
  ⟨_, _, rfl, rfl,
    flush_detach_isolates_batch _ (by decide) [.sig (keyDown 61 70 2000)] (by decide) _ rfl⟩

/-- C1: for a run that handles KeyDown(k, v, t) and later KeyUp(k, 0, t')
with no other signals for key k in between (signals for other keys are
allowed and both signals carry their handling-time wall clock, as the
raw-message listener produces them), the resulting Note is removed from
the registry, sits in the delivery buffer with its duration frozen to
exactly t' - t, reports `playing = false`, and every subsequent read of
`duration` — at any wall-clock time — returns the same frozen value. -/
theorem keyDown_keyUp_freezes (base k v t t' : Int) (mid : List SigEvent)
    (hmid : ∀ e ∈ mid, e.key ≠ k) (s' : MIDIState)
    (h : runSigs (initState base) ([keyDown k v t] ++ mid ++ [keyUp k 0 t']) = .ok s') :
    ∃ n : Note, mapGet s'.notes k = none ∧ n ∈ s'._buffer
      ∧ n.key = k ∧ n.velocity = v ∧ n.timestamp = t
      ∧ n._duration = some (t' - t) ∧ n.playing = false
      ∧ ∀ now : Int, n.duration now = t' - t := by
  rw [List.append_assoc, runSigs_append] at h
  have hstep1 : runSigs (initState base) [keyDown k v t]
      = .ok (_noteon (initState base) k v t) := rfl
  rw [hstep1] at h
  replace h : runSigs (_noteon (initState base) k v t) (mid ++ [keyUp k 0 t']) = .ok s' := h
  rw [runSigs_append] at h
  cases hm : runSigs (_noteon (initState base) k v t) mid with
  | error msg => rw [hm] at h; cases h
  | ok s₁ =>
    rw [hm] at h
    replace h : runSigs s₁ [keyUp k 0 t'] = .ok s' := h
    have hkeep : mapGet s₁.notes k
        = some { _id := ⟨base, 0⟩, key := k, velocity := v,
                 timestamp := t, _duration := none } := by
      rw [runSigs_mapGet_ne mid k hmid _ s₁ hm]
      simp [_noteon, initState, mapSet, mapGet]
    have hoff : _noteoff s₁ k 0 t' t'
        = .ok { s₁ with
                _buffer := s₁._buffer ++
                  [{ _id := ⟨base, 0⟩, key := k, velocity := v,
                     timestamp := t, _duration := some (t' - t) }]
                events := s₁.events ++
                  [("beforenoteoff", none),
                   ("noteoff", some { _id := ⟨base, 0⟩, key := k, velocity := v,
                                      timestamp := t, _duration := some (t' - t) })]
                notes := mapDelete s₁.notes k } := by
      unfold _noteoff
      rw [hkeep]
      rfl
    have hstep2 : runSigs s₁ [keyUp k 0 t'] = _noteoff s₁ k 0 t' t' := by
      simp only [runSigs, step, keyUp]
      cases _noteoff s₁ k 0 t' t' with
      | error msg => rfl
      | ok s'' => rfl
    rw [hstep2, hoff] at h
    injection h with h
    subst h
    refine ⟨{ _id := ⟨base, 0⟩, key := k, velocity := v, timestamp := t,
              _duration := some (t' - t) },
      mapGet_delete_self s₁.notes k, by simp, rfl, rfl, rfl, rfl, rfl,
      fun now => rfl⟩

/-- Witness for `keyDown_keyUp_freezes`: KeyDown(60, 80, 1000) then
KeyUp(60, 0, 1500), with nothing in between. -/
theorem keyDown_keyUp_freezes_witness :
    ∃ s' : MIDIState,
      runSigs (initState 0) ([keyDown 60 80 1000] ++ [] ++ [keyUp 60 0 1500]) = .ok s'
      ∧ ∃ n : Note, mapGet s'.notes 60 = none ∧ n ∈ s'._buffer
          ∧ n.key = 60 ∧ n.velocity = 80 ∧ n.timestamp = 1000
          ∧ n._duration = some (1500 - 1000) ∧ n.playing = false
          ∧ ∀ now : Int, n.duration now = 1500 - 1000 :=
  ⟨_, rfl, keyDown_keyUp_freezes 0 60 80 1000 1500 [] (by simp) _ rfl⟩
